import Mathlib

/-!
Verification of the Research-paper-search backend (FastAPI + agent pipeline).

The Python sources are shallowly embedded here:
* `schemas.py`   → `Paper`, `ResearchResponse` and their pydantic field validation;
* `main.py`      → the in-process cache (`normalize_cache_key`, `cache_get`,
  `cache_set`, `cache_stats`, `clear_cache`), the `/api/research` boundary
  handler (`research`) and `extract_json_from_text`;
* `tools.py`     → `build_arxiv_query` and the validation/clamping prefix of
  `search_arxiv`;
* `agents.py`    → the transcript extraction and output-finalisation logic of
  `run_research_workflow` (`selectCandidate`, `finalizeOutput`).

Python strings are modelled as `List Char`; the Python string operations used
by the sources (`strip`, `lower`, `replace`, `split`, `find`, `rfind`, `in`,
slicing) are defined below with Python's semantics.  External collaborators
(the JSON parser `json.loads`, pydantic's dict-to-model construction, the
model dump, the arXiv transport) are parameters of the embedded functions:
the repository's own logic is the control flow around them.
-/

/-- Whitespace test used by the Python `str.strip` / `str.split` models. -/
def isWs (c : Char) : Bool := c.isWhitespace

/-- Python `s.strip()`: remove whitespace from both ends. -/
def pyStripL (s : List Char) : List Char :=
  ((s.dropWhile isWs).reverse.dropWhile isWs).reverse

/-- Python `s.lower()` (ASCII case fold, as used by the sources). -/
def pyLower (s : List Char) : List Char := s.map Char.toLower

/-- Does the list start with the given pattern? -/
def startsWithL : List Char → List Char → Bool
  | [], _ => true
  | _ :: _, [] => false
  | p :: ps, c :: cs => p == c && startsWithL ps cs

/-- Python `pat in s`: substring containment. -/
def containsSub (pat : List Char) : List Char → Bool
  | [] => pat.isEmpty
  | c :: rest => startsWithL pat (c :: rest) || containsSub pat rest

/-- Index of the first occurrence of a substring, if any (Python `s.find`). -/
def findSubIdx (pat : List Char) : List Char → Option Nat
  | [] => if pat.isEmpty then some 0 else none
  | c :: rest =>
    if startsWithL pat (c :: rest) then some 0
    else (findSubIdx pat rest).map (· + 1)

/-- Index of the first character satisfying `p`, if any. -/
def findIdxL (p : Char → Bool) : List Char → Option Nat
  | [] => none
  | c :: rest => if p c then some 0 else (findIdxL p rest).map (· + 1)

/-- Fuel-driven worker for `replaceAll`; with fuel at least the length of the
input it removes every (leftmost-first, non-overlapping) occurrence of the
pattern, matching Python's `s.replace(pat, "")`. -/
def replAux (pat : List Char) : Nat → List Char → List Char
  | _, [] => []
  | 0, s => s
  | fuel + 1, c :: rest =>
    if !pat.isEmpty && startsWithL pat (c :: rest) then
      replAux pat fuel (List.drop pat.length (c :: rest))
    else
      c :: replAux pat fuel rest

/-- Python `s.replace(pat, "")`: delete every occurrence of `pat`. -/
def replaceAll (pat s : List Char) : List Char := replAux pat s.length s

/-- Word accumulator for `pyWords` (current word is kept reversed). -/
def wordsAux : List Char → List Char → List (List Char)
  | cur, [] => if cur.isEmpty then [] else [cur.reverse]
  | cur, c :: rest =>
    if isWs c then
      if cur.isEmpty then wordsAux [] rest else cur.reverse :: wordsAux [] rest
    else wordsAux (c :: cur) rest

/-- Python `s.split()`: split on whitespace runs, dropping empty pieces. -/
def pyWords (s : List Char) : List (List Char) := wordsAux [] s

/-- Python `s.find(ch)` with the `-1` not-found convention. -/
def pyFindChar (ch : Char) (s : List Char) : Int :=
  match findIdxL (fun c => c == ch) s with
  | some n => (n : Int)
  | none => -1

/-- Python `s.rfind(ch)` with the `-1` not-found convention. -/
def pyRFindChar (ch : Char) (s : List Char) : Int :=
  match findIdxL (fun c => c == ch) s.reverse with
  | some n => (s.length : Int) - 1 - (n : Int)
  | none => -1

/-- Python slice `s[a:b]` for integer indices already known to be in range. -/
def pySliceI (s : List Char) (a b : Int) : List Char :=
  (s.drop a.toNat).take (b - a).toNat

/-! ## `schemas.py` -/

/-- One bibliographic record (`schemas.Paper`).  The relevance score is an
optional rational; pydantic's `ge`/`le` bounds become the `Paper.valid`
check below. -/
structure Paper where
  title : String
  pdf_link : String
  authors : String
  summary : String
  matching_score : Option ℚ
  deriving DecidableEq

/-- Pydantic field validation of a `Paper`: `matching_score`, when present,
must satisfy `0.0 ≤ s ≤ 1.0` (`Field(ge=0.0, le=1.0)`); no other field has a
constraint.  Validation accepts or rejects, it never rewrites the value. -/
def Paper.valid (p : Paper) : Bool :=
  match p.matching_score with
  | none => true
  | some s => decide ((0 : ℚ) ≤ s) && decide (s ≤ (1 : ℚ))

/-- The response record (`schemas.ResearchResponse`). -/
structure ResearchResponse where
  query : String
  total_results : Int
  papers : List Paper
  deriving DecidableEq

/-- Pydantic validation of a `ResearchResponse`: each nested `Paper` must
validate; `query` and `total_results` carry no constraint in `schemas.py`
(there is no validator tying `total_results` to `papers`). -/
def ResearchResponse.valid (r : ResearchResponse) : Bool :=
  r.papers.all Paper.valid

/-! ## `main.py` — cache layer -/

/-- One stored cache entry: `{"result": data, "timestamp": time}`. -/
structure CacheEntry (α : Type) where
  result : α
  timestamp : Int
  deriving DecidableEq

/-- The module-level `_cache` dict, as an association list keyed by the
normalized query.  `α` is the type of the stored payload. -/
abbrev CacheMap (α : Type) : Type := List (List Char × CacheEntry α)

/-- `CACHE_TTL_SECONDS = 3600`. -/
def CACHE_TTL_SECONDS : Int := 3600

/-- `normalize_cache_key`: `query.strip().lower()`. -/
def normalize_cache_key (q : List Char) : List Char := pyLower (pyStripL q)

/-- Dict lookup on the association-list model. -/
def cacheLookup {α : Type} (k : List Char) : CacheMap α → Option (CacheEntry α)
  | [] => none
  | (k', e) :: rest => if k' = k then some e else cacheLookup k rest

/-- Dict `del` on the association-list model. -/
def cacheErase {α : Type} (k : List Char) (c : CacheMap α) : CacheMap α :=
  c.filter (fun p => decide (p.1 ≠ k))

/-- `cache_get`: miss on absent key; if `now - timestamp > TTL` the entry is
deleted and the call is a miss; otherwise the stored result is returned and
the store is untouched. -/
def cache_get {α : Type} (c : CacheMap α) (q : List Char) (now : Int) :
    CacheMap α × Option α :=
  let key := normalize_cache_key q
  match cacheLookup key c with
  | none => (c, none)
  | some entry =>
    if now - entry.timestamp > CACHE_TTL_SECONDS then
      (cacheErase key c, none)
    else
      (c, some entry.result)

/-- `cache_set`: unconditionally store under the normalized key with the
current timestamp, overwriting any previous entry. -/
def cache_set {α : Type} (c : CacheMap α) (q : List Char) (r : α) (now : Int) :
    CacheMap α :=
  (normalize_cache_key q, ⟨r, now⟩) :: cacheErase (normalize_cache_key q) c

/-- The dict returned by `cache_stats`. -/
structure CacheStats where
  total_entries : Nat
  valid_entries : Nat
  ttl_seconds : Int
  deriving DecidableEq

/-- `cache_stats`: count of all entries and of the not-yet-expired ones; a
pure read, nothing is evicted. -/
def cache_stats {α : Type} (c : CacheMap α) (now : Int) : CacheStats :=
  { total_entries := c.length
    valid_entries :=
      c.countP (fun p => decide (now - p.2.timestamp ≤ CACHE_TTL_SECONDS))
    ttl_seconds := CACHE_TTL_SECONDS }

/-- `clear_cache` (the DELETE `/api/cache` handler): report `len(_cache)` and
reset the store to empty, expired entries included. -/
def clear_cache {α : Type} (c : CacheMap α) : Nat × CacheMap α := (c.length, [])

/-! ## `tools.py` -/

/-- The `noise_phrases` list of `build_arxiv_query`, in source order. -/
def noisePhrases : List (List Char) :=
  ["show me papers on".data, "show me papers about".data,
   "find papers on".data, "find papers about".data,
   "search for papers on".data, "search for papers about".data,
   "search for".data, "find me".data, "show me".data,
   "papers on".data, "papers about".data,
   "research on".data, "research about".data,
   "i want to find".data, "i want to see".data,
   "can you find".data, "can you show".data,
   "looking for".data, "look for".data]

/-- The interrogative words checked by `build_arxiv_query`
(substring containment, as in the Python `any(w in clean_query ...)`). -/
def interrogativeWords : List (List Char) :=
  ["how".data, "what".data, "why".data, "which".data]

/-- The query-cleaning phase of `build_arxiv_query`: strip and lower-case,
delete every noise phrase in turn, strip again, and fall back to the
stripped-and-lowered original when nothing is left. -/
def cleanedQuery (q : List Char) : List Char :=
  let query := pyLower (pyStripL q)
  let c := pyStripL (noisePhrases.foldl (fun acc p => replaceAll p acc) query)
  if c = [] then query else c

/-- `build_arxiv_query`: clean the query, classify it as title-like (a colon,
or at least five words with no interrogative substring) and emit either the
exact-phrase search or the term search over the title and abstract fields. -/
def build_arxiv_query (q : List Char) : List Char :=
  let clean_query := cleanedQuery q
  let words := pyWords clean_query
  let is_likely_title :=
    containsSub [':'] clean_query ||
    (decide (5 ≤ words.length) &&
      !(interrogativeWords.any (fun w => containsSub w clean_query)))
  if is_likely_title then
    "ti:\"".data ++ clean_query ++ "\" OR abs:\"".data ++ clean_query ++ ['"']
  else
    "ti:".data ++ clean_query ++ " OR abs:".data ++ clean_query

/-- Failure kinds of `search_arxiv`: `invalidInput` is the `ValueError`
raised by the up-front argument checks; `backendUnavailable` is the
`RuntimeError` into which every provider failure is wrapped. -/
inductive SearchErr where
  | invalidInput
  | backendUnavailable
  deriving DecidableEq

/-- `search_arxiv`, with the arXiv transport abstracted as `fetch` (any
provider failure is `Except.error ()`).  The returned `Bool` records whether
the warning-level clamp signal was emitted.  The argument checks run before
`fetch` is ever consulted; `max_results > 100` is clamped to `100`. -/
def search_arxiv {P : Type} (fetch : List Char → Int → Except Unit (List P))
    (query : List Char) (max_results : Int) : Bool × Except SearchErr (List P) :=
  if query = [] ∨ pyStripL query = [] then
    (false, Except.error SearchErr.invalidInput)
  else if max_results < 1 then
    (false, Except.error SearchErr.invalidInput)
  else
    let warned := decide (100 < max_results)
    let mr := if 100 < max_results then 100 else max_results
    match fetch (build_arxiv_query query) mr with
    | Except.ok ps => (warned, Except.ok ps)
    | Except.error _ => (warned, Except.error SearchErr.backendUnavailable)

/-! ## `agents.py` — transcript extraction and output finalisation -/

/-- The termination token stripped from the candidate payload. -/
def termTok : List Char := "TERMINATE".data

/-- A transcript message qualifies as candidate payload when its text
contains a brace character and the substring `papers`. -/
def qualifiesMsg (m : List Char) : Bool :=
  containsSub ['{'] m && containsSub "papers".data m

/-- The `for message in reversed(result.messages)` loop: first qualifying
message of the (already reversed) list, `""` when none qualifies. -/
def findCandidateRev : List (List Char) → List Char
  | [] => []
  | m :: rest => if qualifiesMsg m then m else findCandidateRev rest

/-- Candidate payload selection over a transcript in chronological order. -/
def selectCandidate (msgs : List (List Char)) : List Char :=
  findCandidateRev msgs.reverse

/-- The brace-window slice of `run_research_workflow`: Python
`start_idx = s.find("{")`, `end_idx = s.rfind("}") + 1`, slicing only when
`start_idx != -1 and end_idx > start_idx`. -/
def braceSlice (s : List Char) : List Char :=
  let st := pyFindChar '{' s
  let en := pyRFindChar '}' s + 1
  if st ≠ -1 ∧ en > st then pySliceI s st en else s

/-- The clean-up/validation tail of `run_research_workflow`.  `jp` abstracts
`json.loads` (`none` = `JSONDecodeError`), `va` abstracts
`ResearchResponse(**parsed)` (`none` = pydantic `ValidationError`), `du`
abstracts `model_dump_json`.  Any failure inside the `try` returns the raw
candidate `finalOut` unchanged. -/
def finalizeOutput {J : Type} (jp : List Char → Option J)
    (va : J → Option ResearchResponse) (du : ResearchResponse → List Char)
    (finalOut : List Char) : List Char :=
  let c1 := pyStripL finalOut
  let c2 := pyStripL (replaceAll termTok c1)
  let c3 := braceSlice c2
  match jp c3 with
  | none => finalOut
  | some parsed =>
    match va parsed with
    | none => finalOut
    | some resp => du resp

/-- The post-exchange portion of `run_research_workflow`: select the
candidate message from the transcript, then clean, parse and validate it. -/
def runWorkflowExtract {J : Type} (jp : List Char → Option J)
    (va : J → Option ResearchResponse) (du : ResearchResponse → List Char)
    (msgs : List (List Char)) : List Char :=
  finalizeOutput jp va du (selectCandidate msgs)

/-! ## `main.py` — boundary service -/

/-- Opening token of a Markdown JSON code fence (three backticks followed
by `json`), searched for by `extract_json_from_text`. -/
def fenceJson : List Char := "```json".data

/-- A bare code-fence delimiter. -/
def fenceTok : List Char := "```".data

/-- The Markdown-code-fence stripping phase of `extract_json_from_text`:
if the text contains a fence opener, slice out the fenced body (when a
closing fence follows) and strip it; otherwise leave the text alone.
Python's `find(pat, start)` returning `-1` is modelled with `Int`. -/
def stripFences (t : List Char) : List Char :=
  if containsSub fenceJson t then
    match findSubIdx fenceJson t with
    | some i =>
      let st : Int := (i : Int) + 7
      let en : Int :=
        match findSubIdx fenceTok (t.drop st.toNat) with
        | some j => st + (j : Int)
        | none => -1
      if en > st then pyStripL (pySliceI t st en) else t
    | none => t
  else if containsSub fenceTok t then
    match findSubIdx fenceTok t with
    | some i =>
      let st : Int := (i : Int) + 3
      let en : Int :=
        match findSubIdx fenceTok (t.drop st.toNat) with
        | some j => st + (j : Int)
        | none => -1
      if en > st then pyStripL (pySliceI t st en) else t
    | none => t
  else t

/-- `extract_json_from_text`: strip, remove Markdown fences, locate the
brace window, and hand the slice to the JSON parser; `none` when no window
exists or parsing fails. -/
def extract_json_from_text {J : Type} (jp : List Char → Option J)
    (text : List Char) : Option J :=
  let clean0 := pyStripL text
  let clean1 := stripFences clean0
  let st := pyFindChar '{' clean1
  let en := pyRFindChar '}' clean1 + 1
  if st ≠ -1 ∧ en > st then jp (pySliceI clean1 st en) else none

/-- Outcome of `await run_research_workflow(query)` as seen by the endpoint:
either the returned text or a raised exception. -/
inductive WfOutcome where
  | ok (s : List Char)
  | err
  deriving DecidableEq

/-- The HTTP 500 variants raised by the `research` endpoint. -/
inductive ApiError where
  | workflowFailed
  | parseFailed
  | validationFailed
  deriving DecidableEq

/-- What the endpoint hands back to the transport layer. -/
inductive ApiOutcome where
  | ok (r : ResearchResponse)
  | error (e : ApiError)
  deriving DecidableEq

/-- The cache-miss body of the `research` endpoint (the big `try`).  `jp`
abstracts `json.loads`, `va` abstracts `ResearchResponse(**d)`, `truthy`
abstracts Python truthiness of the parsed dict (`if extracted:`).  On the
primary path a validated parse is cached; on a `JSONDecodeError` the
secondary `extract_json_from_text` is tried once, caching only after its
result validates; every failure raises an HTTP 500 (a pydantic error inside
the `JSONDecodeError` handler escapes to the outer `except Exception`). -/
def researchMiss {J : Type} (jp : List Char → Option J)
    (va : J → Option ResearchResponse) (truthy : J → Bool)
    (c1 : CacheMap J) (now : Int) (query : List Char) (wf : WfOutcome) :
    ApiOutcome × CacheMap J :=
  match wf with
  | WfOutcome.err => (ApiOutcome.error ApiError.workflowFailed, c1)
  | WfOutcome.ok s =>
    match jp s with
    | some parsed =>
      match va parsed with
      | some r => (ApiOutcome.ok r, cache_set c1 query parsed now)
      | none => (ApiOutcome.error ApiError.validationFailed, c1)
    | none =>
      match extract_json_from_text jp s with
      | some ex =>
        if truthy ex then
          match va ex with
          | some r => (ApiOutcome.ok r, cache_set c1 query ex now)
          | none => (ApiOutcome.error ApiError.workflowFailed, c1)
        else (ApiOutcome.error ApiError.parseFailed, c1)
      | none => (ApiOutcome.error ApiError.parseFailed, c1)

/-- The `research` endpoint: consult the cache (a hit re-validates the
stored dict and returns it; an un-truthy cached dict falls through to the
miss path, mirroring `if cached:`), otherwise run the workflow and process
its output via `researchMiss`. -/
def research {J : Type} (jp : List Char → Option J)
    (va : J → Option ResearchResponse) (truthy : J → Bool)
    (c : CacheMap J) (now : Int) (query : List Char) (wf : WfOutcome) :
    ApiOutcome × CacheMap J :=
  match cache_get c query now with
  | (c1, some data) =>
    if truthy data then
      match va data with
      | some r => (ApiOutcome.ok r, c1)
      | none => (ApiOutcome.error ApiError.validationFailed, c1)
    else researchMiss jp va truthy c1 now query wf
  | (c1, none) => researchMiss jp va truthy c1 now query wf

/-! ## Claim-side (specification) definitions

These follow the spec's words, to be compared with the source-derived
definitions above. -/

/-- Title-likeness as the spec states it: the cleaned query contains a
colon, or has at least five words and contains none of the interrogative
words `how`, `what`, `why`, `which`. -/
def titleLikeSpec (cq : List Char) : Bool :=
  containsSub [':'] cq ||
  (decide (5 ≤ (pyWords cq).length) &&
    !(containsSub "how".data cq || containsSub "what".data cq ||
      containsSub "why".data cq || containsSub "which".data cq))

/-- The exact-phrase search over title and abstract the spec prescribes for
title-like queries. -/
def phraseQuerySpec (cq : List Char) : List Char :=
  "ti:\"".data ++ cq ++ "\" OR abs:\"".data ++ cq ++ ['"']

/-- The term search (OR of the two field searches) for all other queries. -/
def termQuerySpec (cq : List Char) : List Char :=
  "ti:".data ++ cq ++ " OR abs:".data ++ cq

/-- Position of the first opening brace, spec side. -/
def firstBrace (s : List Char) : Option Nat :=
  findIdxL (fun c => c == '{') s

/-- Position of the last closing brace, spec side. -/
def lastBraceClose (s : List Char) : Option Nat :=
  (findIdxL (fun c => c == '}') s.reverse).map (fun n => s.length - 1 - n)

/-- The spec's slice: from the first opening brace to the last closing brace
inclusive, left alone when either is missing or out of order. -/
def sliceSpec (s : List Char) : List Char :=
  match firstBrace s, lastBraceClose s with
  | some a, some b => if a ≤ b then (s.drop a).take (b + 1 - a) else s
  | some _, none => s
  | none, _ => s

/-! ## Helper lemmas -/

theorem findIdxL_lt_length {p : Char → Bool} :
    ∀ {l : List Char} {n : Nat}, findIdxL p l = some n → n < l.length := by
  intro l
  induction l with
  | nil => intro n h; simp [findIdxL] at h
  | cons c rest ih =>
    intro n h
    simp only [findIdxL] at h
    by_cases hc : p c
    · rw [if_pos hc] at h
      cases h
      simp
    · rw [if_neg hc] at h
      rcases Option.map_eq_some'.mp h with ⟨m, hm, rfl⟩
      have := ih hm
      simpa using Nat.succ_lt_succ this

theorem cacheLookup_erase {α : Type} (k k' : List Char) (c : CacheMap α) :
    cacheLookup k (cacheErase k' c) =
      if k = k' then none else cacheLookup k c := by
  induction c with
  | nil => simp [cacheErase, cacheLookup]
  | cons p rest ih =>
    obtain ⟨k0, e0⟩ := p
    by_cases h0 : k0 = k' <;> by_cases hk : k = k' <;> by_cases hk0 : k0 = k <;>
      simp_all [cacheErase, cacheLookup, List.filter_cons]

theorem cacheLookup_erase_self {α : Type} (k : List Char) (c : CacheMap α) :
    cacheLookup k (cacheErase k c) = none := by
  rw [cacheLookup_erase]; simp

theorem cacheLookup_erase_some {α : Type} {k k' : List Char} {c : CacheMap α}
    {e : CacheEntry α} (h : cacheLookup k (cacheErase k' c) = some e) :
    cacheLookup k c = some e := by
  rw [cacheLookup_erase] at h
  by_cases hk : k = k'
  · rw [if_pos hk] at h; cases h
  · rwa [if_neg hk] at h

theorem cacheLookup_set {α : Type} {k q : List Char} {r : α} {t : Int}
    {c : CacheMap α} {e : CacheEntry α}
    (h : cacheLookup k (cache_set c q r t) = some e) :
    e = ⟨r, t⟩ ∨ cacheLookup k c = some e := by
  simp only [cache_set, cacheLookup] at h
  by_cases hk : normalize_cache_key q = k
  · rw [if_pos hk] at h
    exact Or.inl (Option.some.inj h).symm
  · rw [if_neg hk] at h
    exact Or.inr (cacheLookup_erase_some h)

theorem cacheLookup_get_fst {α : Type} {k : List Char} {c : CacheMap α}
    {q : List Char} {now : Int} {e : CacheEntry α}
    (h : cacheLookup k (cache_get c q now).1 = some e) :
    cacheLookup k c = some e := by
  cases hl : cacheLookup (normalize_cache_key q) c with
  | none =>
    simp only [cache_get, hl] at h
    exact h
  | some entry =>
    simp only [cache_get, hl] at h
    by_cases hexp : now - entry.timestamp > CACHE_TTL_SECONDS
    · rw [if_pos hexp] at h
      exact cacheLookup_erase_some (by simpa using h)
    · rw [if_neg hexp] at h
      simpa using h

/-! ## Claim theorems -/

/-- C1 (amended): `ResearchResponse` validation does not constrain
`total_results` at all — acceptance is unchanged under any replacement of
the field — so a response whose `total_results` differs from the length of
`papers` is still accepted by the schema; the equality is only a documented
convention, not a validation rule. -/
theorem total_results_unconstrained (q : String) (n m : Int) (ps : List Paper) :
    ResearchResponse.valid ⟨q, n, ps⟩ = ResearchResponse.valid ⟨q, m, ps⟩ := rfl

/-- C1 (counterexample): the schema accepts a response whose `total_results`
(5) differs from the length of its `papers` list (0), so a response where
they differ does not fail validation. -/
theorem total_results_mismatch_accepted :
    ResearchResponse.valid ⟨"q", 5, []⟩ = true ∧
    (⟨"q", 5, []⟩ : ResearchResponse).total_results ≠
      ((⟨"q", 5, []⟩ : ResearchResponse).papers.length : Int) := by
  exact ⟨rfl, by decide⟩

/-- C2: a present `matching_score` validates exactly when it lies in
`[0, 1]`; an absent score always validates; the concrete score `3/2 = 1.5`
is rejected (a validation failure — `Paper.valid` is a pure accept/reject
predicate, it never rewrites the stored value). -/
theorem matching_score_range :
    (∀ (t l a su : String) (s : ℚ),
      Paper.valid ⟨t, l, a, su, some s⟩ = true ↔ 0 ≤ s ∧ s ≤ 1)
    ∧ (∀ t l a su : String, Paper.valid ⟨t, l, a, su, none⟩ = true)
    ∧ Paper.valid ⟨"T", "L", "A", "S", some (3 / 2 : ℚ)⟩ = false := by
  have hbig : ¬((3 / 2 : ℚ) ≤ 1) := by norm_num
  refine ⟨?_, fun t l a su => rfl, by simp [Paper.valid, hbig]⟩
  intro t l a su s
  simp [Paper.valid]

/-- C2 witness: a paper with score `1/2` is accepted, via the range
characterisation. -/
theorem matching_score_range_w :
    Paper.valid ⟨"a", "b", "c", "d", some (0 : ℚ)⟩ = true :=
  (matching_score_range.1 "a" "b" "c" "d" 0).mpr ⟨le_rfl, zero_le_one⟩

/-- C3: for a stored entry, a `get` at a time within the TTL returns exactly
the stored data and leaves the store untouched; a `get` past the TTL deletes
the entry (so it is absent from the store that any later `stats` would
enumerate) and reports a miss.  `set` stores unconditionally — no expiry
check happens outside `get` (and `stats`, a pure read, evicts nothing by
construction). -/
theorem cache_get_ttl (α : Type) (c : CacheMap α) (q : List Char) (now : Int)
    (e : CacheEntry α)
    (hl : cacheLookup (normalize_cache_key q) c = some e) :
    (now - e.timestamp ≤ CACHE_TTL_SECONDS →
      cache_get c q now = (c, some e.result))
    ∧ (CACHE_TTL_SECONDS < now - e.timestamp →
        cache_get c q now = (cacheErase (normalize_cache_key q) c, none)
        ∧ cacheLookup (normalize_cache_key q) (cache_get c q now).1 = none)
    ∧ ∀ (r : α) (t : Int),
        cacheLookup (normalize_cache_key q) (cache_set c q r t) = some ⟨r, t⟩ := by
  refine ⟨?_, ?_, ?_⟩
  · intro hfresh
    simp only [cache_get, hl]
    rw [if_neg (by omega)]
  · intro hexp
    have hdel : cache_get c q now = (cacheErase (normalize_cache_key q) c, none) := by
      simp only [cache_get, hl]
      rw [if_pos (by omega)]
    exact ⟨hdel, by rw [hdel]; exact cacheLookup_erase_self _ _⟩
  · intro r t
    simp [cache_set, cacheLookup]

/-- C3 witness: a fresh entry is returned as stored; an expired one is
evicted and missed. -/
theorem cache_get_ttl_w :
    cache_get ([(['a'], ⟨7, 0⟩)] : CacheMap Nat) ['a'] 100 =
      ([(['a'], ⟨7, 0⟩)], some 7)
    ∧ (cache_get ([(['a'], ⟨7, 0⟩)] : CacheMap Nat) ['a'] 9999).1 = [] := by
  have h := cache_get_ttl Nat [(['a'], ⟨7, 0⟩)] ['a'] 100 ⟨7, 0⟩ (by decide)
  have h2 := cache_get_ttl Nat [(['a'], ⟨7, 0⟩)] ['a'] 9999 ⟨7, 0⟩ (by decide)
  refine ⟨h.1 (by decide), ?_⟩
  rw [(h2.2.1 (by decide)).1]
  decide

/-- C4: two queries that agree after trimming and case-folding share a cache
slot — a `set` under one followed by a `get` under the other within the TTL
hits the stored entry (and leaves the store unchanged). -/
theorem cache_key_normalized (α : Type) (c : CacheMap α) (q1 q2 : List Char)
    (r : α) (t now : Int)
    (hk : pyLower (pyStripL q1) = pyLower (pyStripL q2))
    (hfresh : now - t ≤ CACHE_TTL_SECONDS) :
    cache_get (cache_set c q1 r t) q2 now = (cache_set c q1 r t, some r) := by
  have hkey : normalize_cache_key q2 = normalize_cache_key q1 := by
    simp [normalize_cache_key, hk]
  have hl : cacheLookup (normalize_cache_key q2) (cache_set c q1 r t) =
      some ⟨r, t⟩ := by
    rw [hkey]; simp [cache_set, cacheLookup]
  simp only [cache_get, hl]
  rw [if_neg (by omega)]

/-- C4 witness: `"  Foo "` and `"foo"` resolve to the same slot. -/
theorem cache_key_normalized_w :
    cache_get (cache_set ([] : CacheMap Nat) "  Foo ".data 3 0) "foo".data 10 =
      (cache_set ([] : CacheMap Nat) "  Foo ".data 3 0, some 3) :=
  cache_key_normalized Nat [] "  Foo ".data "foo".data 3 0 10 (by decide) (by decide)

/-- C9: the adapter's up-front validation fails with `InvalidInput` exactly
when the query strips to nothing or `max_results < 1`, for every backend
`fetch` (so before and independent of any backend call); `max_results > 100`
does not fail — the call behaves exactly like one with `max_results = 100`
except that the warning-level signal is emitted; in-range calls emit no
warning. -/
theorem search_arxiv_validation (P : Type)
    (fetch : List Char → Int → Except Unit (List P)) (q : List Char) (mr : Int) :
    ((search_arxiv fetch q mr).2 = Except.error SearchErr.invalidInput ↔
      (pyStripL q = [] ∨ mr < 1))
    ∧ (100 < mr → pyStripL q ≠ [] →
        (search_arxiv fetch q mr).1 = true ∧
        (search_arxiv fetch q mr).2 = (search_arxiv fetch q 100).2)
    ∧ (pyStripL q ≠ [] → 1 ≤ mr → mr ≤ 100 →
        (search_arxiv fetch q mr).1 = false) := by
  refine ⟨?_, ?_, ?_⟩
  · by_cases hq : pyStripL q = []
    · simp [search_arxiv, hq]
    · have hqe : ¬(q = []) := fun h0 => hq (by rw [h0]; rfl)
      by_cases hmr : mr < 1
      · simp [search_arxiv, hqe, hmr, hq]
      · cases hf : fetch (build_arxiv_query q) (if 100 < mr then 100 else mr) <;>
          simp [search_arxiv, hqe, hmr, hf, hq]
  · intro h100 hq
    have hqe : ¬(q = []) := fun h0 => hq (by rw [h0]; rfl)
    have hmr : ¬(mr < 1) := by omega
    have h100' : ¬((100 : Int) < 100) := by omega
    cases hf : fetch (build_arxiv_query q) 100 <;>
      simp [search_arxiv, hqe, hq, hmr, hf, h100, h100']
  · intro hq h1 hle
    have hqe : ¬(q = []) := fun h0 => hq (by rw [h0]; rfl)
    have hmr : ¬(mr < 1) := by omega
    have hnc : ¬(100 < mr) := by omega
    cases hf : fetch (build_arxiv_query q) mr <;>
      simp [search_arxiv, hqe, hq, hmr, hnc, hf]

/-- C9 witness: an over-large `max_results` of 150 warns and behaves like a
call with 100; an empty query is `InvalidInput`. -/
theorem search_arxiv_validation_w :
    (search_arxiv (fun _ _ => Except.ok ([] : List Unit)) ['a'] 150).1 = true
    ∧ (search_arxiv (fun _ _ => Except.ok ([] : List Unit)) [' '] 5).2 =
        Except.error SearchErr.invalidInput := by
  constructor
  · exact ((search_arxiv_validation Unit (fun _ _ => Except.ok []) ['a'] 150).2.1
      (by decide) (by decide)).1
  · exact ((search_arxiv_validation Unit (fun _ _ => Except.ok []) [' '] 5).1).mpr
      (Or.inl (by decide))

/-- C10: `clear` wipes the store and reports the full entry count whether
entries are expired or not; in particular with 3 valid and 2 expired entries
it reports 5, and a subsequent `stats` reports 0 total and 0 valid. -/
theorem clear_cache_reports_all (α : Type) (c : CacheMap α) (now now2 : Int)
    (h3 : (cache_stats c now).valid_entries = 3)
    (h5 : (cache_stats c now).total_entries = 5) :
    (clear_cache c).1 = 5
    ∧ (clear_cache c).2 = []
    ∧ cache_stats (clear_cache c).2 now2 = ⟨0, 0, CACHE_TTL_SECONDS⟩
    ∧ ∀ c2 : CacheMap α, (clear_cache c2).1 = c2.length := by
  exact ⟨h5, rfl, rfl, fun c2 => rfl⟩

/-- C10 witness: a concrete store with 3 valid and 2 expired entries. -/
theorem clear_cache_reports_all_w :
    (clear_cache ([(['a'], ⟨0, 0⟩), (['b'], ⟨1, 0⟩), (['c'], ⟨2, 0⟩),
      (['d'], ⟨3, -5000⟩), (['e'], ⟨4, -5000⟩)] : CacheMap Nat)).1 = 5 :=
  (clear_cache_reports_all Nat
    [(['a'], ⟨0, 0⟩), (['b'], ⟨1, 0⟩), (['c'], ⟨2, 0⟩),
      (['d'], ⟨3, -5000⟩), (['e'], ⟨4, -5000⟩)] 100 0
    (by decide) (by decide)).1

theorem findCandidateRev_append {xs ys : List (List Char)}
    (h : ∀ x ∈ xs, qualifiesMsg x = false) :
    findCandidateRev (xs ++ ys) = findCandidateRev ys := by
  induction xs with
  | nil => rfl
  | cons x rest ih =>
    simp only [List.cons_append, findCandidateRev]
    rw [if_neg (by simp [h x (List.mem_cons_self _ _)])]
    exact ih fun y hy => h y (List.mem_cons_of_mem _ hy)

theorem findCandidateRev_none {xs : List (List Char)}
    (h : ∀ x ∈ xs, qualifiesMsg x = false) : findCandidateRev xs = [] := by
  induction xs with
  | nil => rfl
  | cons x rest ih =>
    simp only [findCandidateRev]
    rw [if_neg (by simp [h x (List.mem_cons_self _ _)])]
    exact ih fun y hy => h y (List.mem_cons_of_mem _ hy)

/-- C5: `build_arxiv_query` classifies the cleaned query as title-like
exactly per the spec's condition — a colon, or at least five words and no
interrogative substring among `how`, `what`, `why`, `which` — emitting the
exact-phrase search for title-like queries and the term search otherwise;
and the concrete query `"  Retrieval Augmented Generation  "` yields the
term query over its cleaned form. -/
theorem build_arxiv_query_classifies :
    (∀ q : List Char,
      build_arxiv_query q =
        if titleLikeSpec (cleanedQuery q) then phraseQuerySpec (cleanedQuery q)
        else termQuerySpec (cleanedQuery q))
    ∧ build_arxiv_query "  Retrieval Augmented Generation  ".data =
        termQuerySpec "retrieval augmented generation".data := by
  constructor
  · intro q
    simp only [build_arxiv_query, titleLikeSpec, phraseQuerySpec, termQuerySpec,
      interrogativeWords, List.any_cons, List.any_nil, Bool.or_false]
    have hassoc : ∀ x y z w : Bool, (x || (y || (z || w))) = (x || y || z || w) := by
      intro x y z w
      cases x <;> cases y <;> cases z <;> cases w <;> rfl
    rw [hassoc]
  · decide

/-- C6: transcript extraction picks the most recent message containing both
a brace and the substring `papers` (formalised: whenever the transcript
splits as `pre ++ m :: suf` with `m` qualifying and nothing after it
qualifying, `m` is selected); when no message qualifies the selection is
empty and the whole pipeline extraction returns the empty string (given
that the JSON parser rejects the empty input, as `json.loads("")` does). -/
theorem transcript_extraction (msgs pre suf : List (List Char)) (m : List Char) :
    (msgs = pre ++ m :: suf → qualifiesMsg m = true →
      (∀ m2 ∈ suf, qualifiesMsg m2 = false) → selectCandidate msgs = m)
    ∧ ((∀ m2 ∈ msgs, qualifiesMsg m2 = false) →
        selectCandidate msgs = [] ∧
        ∀ (J : Type) (jp : List Char → Option J) (va : J → Option ResearchResponse)
          (du : ResearchResponse → List Char),
          jp [] = none → runWorkflowExtract jp va du msgs = []) := by
  constructor
  · rintro rfl hm hsuf
    unfold selectCandidate
    rw [List.reverse_append, List.reverse_cons, List.append_assoc]
    rw [findCandidateRev_append fun x hx => hsuf x (List.mem_reverse.mp hx)]
    simp only [List.singleton_append, findCandidateRev, hm, if_true]
  · intro hall
    have hsel : selectCandidate msgs = [] :=
      findCandidateRev_none fun x hx => hall x (List.mem_reverse.mp hx)
    refine ⟨hsel, ?_⟩
    intro J jp va du hjp
    unfold runWorkflowExtract
    rw [hsel]
    have hred : finalizeOutput jp va du [] =
        (match jp [] with
         | none => ([] : List Char)
         | some parsed =>
           match va parsed with
           | none => ([] : List Char)
           | some resp => du resp) := rfl
    rw [hred, hjp]

/-- C6 witness: a one-message transcript whose message qualifies is
selected. -/
theorem transcript_extraction_w :
    selectCandidate [['{', 'p', 'a', 'p', 'e', 'r', 's']] =
      ['{', 'p', 'a', 'p', 'e', 'r', 's'] :=
  (transcript_extraction [['{', 'p', 'a', 'p', 'e', 'r', 's']] [] []
      ['{', 'p', 'a', 'p', 'e', 'r', 's']).1 rfl (by decide)
    (fun m2 hm2 => absurd hm2 (List.not_mem_nil m2))

theorem braceSlice_eq_sliceSpec (s : List Char) : braceSlice s = sliceSpec s := by
  simp only [braceSlice, sliceSpec, pyFindChar, pyRFindChar, pySliceI,
    firstBrace, lastBraceClose]
  cases h1 : findIdxL (fun c => c == '{') s with
  | none =>
    simp only []
    rw [if_neg]
    intro hcon
    exact hcon.1 rfl
  | some a =>
    cases h2 : findIdxL (fun c => c == '}') s.reverse with
    | none =>
      simp only [Option.map_none']
      rw [if_neg]
      rintro ⟨-, hgt⟩
      omega
    | some n =>
      have hn : n < s.length := by
        have := findIdxL_lt_length h2
        simpa using this
      simp only [Option.map_some']
      by_cases hab : a ≤ s.length - 1 - n
      · rw [if_pos (by constructor <;> omega), if_pos hab]
        have e1 : ((a : Int)).toNat = a := by omega
        have e2 : ((s.length : Int) - 1 - (n : Int) + 1 - (a : Int)).toNat =
            s.length - 1 - n + 1 - a := by omega
        rw [e1, e2]
      · rw [if_neg, if_neg hab]
        rintro ⟨-, hgt⟩
        omega

/-- C7: the workflow's finalisation slices the candidate (after stripping
the `TERMINATE` token) from the first opening brace to the last closing
brace inclusive (`braceSlice` agrees with the spec's `sliceSpec` on every
input), parses and schema-validates that slice, and on parse failure or
validation failure returns the raw un-parsed candidate text unchanged
instead of failing; on success it returns the dumped validated response. -/
theorem finalize_output_fallback :
    (∀ s : List Char, braceSlice s = sliceSpec s)
    ∧ ∀ (J : Type) (jp : List Char → Option J) (va : J → Option ResearchResponse)
        (du : ResearchResponse → List Char) (t : List Char),
        (jp (braceSlice (pyStripL (replaceAll termTok (pyStripL t)))) = none →
          finalizeOutput jp va du t = t)
        ∧ ∀ parsed,
            jp (braceSlice (pyStripL (replaceAll termTok (pyStripL t)))) = some parsed →
            (va parsed = none → finalizeOutput jp va du t = t)
            ∧ ∀ r, va parsed = some r → finalizeOutput jp va du t = du r := by
  refine ⟨braceSlice_eq_sliceSpec, ?_⟩
  intro J jp va du t
  have hred : finalizeOutput jp va du t =
      (match jp (braceSlice (pyStripL (replaceAll termTok (pyStripL t)))) with
       | none => t
       | some parsed =>
         match va parsed with
         | none => t
         | some resp => du resp) := rfl
  refine ⟨fun hjp => by rw [hred, hjp], ?_⟩
  intro parsed hjp
  refine ⟨fun hva => by rw [hred, hjp]; simp [hva], ?_⟩
  intro r hva
  rw [hred, hjp]
  simp [hva]

/-- C7 witness: a candidate consisting of a brace pair parses and
validates, so the dump of the validated response is returned. -/
theorem finalize_output_fallback_w :
    finalizeOutput (fun s => if s = ['{', '}'] then some 1 else none)
      (fun _ : Nat => some ⟨"q", 0, []⟩) (fun _ => ['o', 'k']) ['{', '}'] =
      ['o', 'k'] :=
  ((finalize_output_fallback.2 Nat (fun s => if s = ['{', '}'] then some 1 else none)
      (fun _ => some ⟨"q", 0, []⟩) (fun _ => ['o', 'k']) ['{', '}']).2 1
    (by decide)).2 ⟨"q", 0, []⟩ rfl

theorem researchMiss_spec {J : Type} (jp : List Char → Option J)
    (va : J → Option ResearchResponse) (truthy : J → Bool) (c1 : CacheMap J)
    (now : Int) (query : List Char) (wf : WfOutcome) (out : ApiOutcome)
    (c2 : CacheMap J)
    (h : researchMiss jp va truthy c1 now query wf = (out, c2)) :
    (∀ k e, cacheLookup k c2 = some e →
      cacheLookup k c1 = some e ∨ ∃ r, va e.result = some r)
    ∧ ∀ r, out = ApiOutcome.ok r → ∃ j, va j = some r := by
  have hnoop : ∀ a : ApiError,
      (ApiOutcome.error a, c1) = (out, c2) →
      (∀ k e, cacheLookup k c2 = some e →
        cacheLookup k c1 = some e ∨ ∃ r, va e.result = some r)
      ∧ ∀ r, out = ApiOutcome.ok r → ∃ j, va j = some r := by
    intro a ha
    injection ha with h1 h2
    subst h1; subst h2
    exact ⟨fun k e hk => Or.inl hk, fun r hr => by simp at hr⟩
  have hset : ∀ (j : J) (r0 : ResearchResponse), va j = some r0 →
      (ApiOutcome.ok r0, cache_set c1 query j now) = (out, c2) →
      (∀ k e, cacheLookup k c2 = some e →
        cacheLookup k c1 = some e ∨ ∃ r, va e.result = some r)
      ∧ ∀ r, out = ApiOutcome.ok r → ∃ j2, va j2 = some r := by
    intro j r0 hva ha
    injection ha with h1 h2
    subst h1; subst h2
    refine ⟨?_, ?_⟩
    · intro k e hk
      rcases cacheLookup_set hk with he | hold
      · subst he
        exact Or.inr ⟨r0, hva⟩
      · exact Or.inl hold
    · intro r hr
      simp only [ApiOutcome.ok.injEq] at hr
      subst hr
      exact ⟨j, hva⟩
  cases wf with
  | err =>
    simp only [researchMiss] at h
    exact hnoop _ h
  | ok s =>
    simp only [researchMiss] at h
    split at h
    · rename_i parsed hjp
      split at h
      · rename_i r0 hva
        exact hset parsed r0 hva h
      · exact hnoop _ h
    · split at h
      · rename_i ex hex
        split at h
        · split at h
          · rename_i r0 hva
            exact hset ex r0 hva h
          · exact hnoop _ h
        · exact hnoop _ h
      · exact hnoop _ h

/-- C8: the boundary endpoint adds to the cache only payloads that fully
validate as a `ResearchResponse` (on the primary parse path or after the
single Markdown-aware secondary extraction): every entry of the resulting
store was either already present or validates; and every success outcome
carries a response produced by validation — otherwise an error condition is
surfaced, never a partial object. -/
theorem research_caches_validated_only (J : Type) (jp : List Char → Option J)
    (va : J → Option ResearchResponse) (truthy : J → Bool) (c : CacheMap J)
    (now : Int) (query : List Char) (wf : WfOutcome) (out : ApiOutcome)
    (c2 : CacheMap J)
    (hrun : research jp va truthy c now query wf = (out, c2)) :
    (∀ k e, cacheLookup k c2 = some e →
      cacheLookup k c = some e ∨ ∃ r, va e.result = some r)
    ∧ ∀ r, out = ApiOutcome.ok r → ∃ j, va j = some r := by
  rcases hcg : cache_get c query now with ⟨c1, od⟩
  have hc1 : ∀ k e, cacheLookup k c1 = some e → cacheLookup k c = some e := by
    intro k e hk
    apply cacheLookup_get_fst
    rw [hcg]
    exact hk
  have hmiss :
      researchMiss jp va truthy c1 now query wf = (out, c2) →
      (∀ k e, cacheLookup k c2 = some e →
        cacheLookup k c = some e ∨ ∃ r, va e.result = some r)
      ∧ ∀ r, out = ApiOutcome.ok r → ∃ j, va j = some r := by
    intro hm0
    have hm := researchMiss_spec jp va truthy c1 now query wf out c2 hm0
    refine ⟨?_, hm.2⟩
    intro k e hk
    rcases hm.1 k e hk with hold | hv
    · exact Or.inl (hc1 k e hold)
    · exact Or.inr hv
  simp only [research, hcg] at hrun
  cases od with
  | some data =>
    simp only [] at hrun
    split at hrun
    · split at hrun
      · rename_i r0 hva
        injection hrun with h1 h2
        subst h1; subst h2
        refine ⟨fun k e hk => Or.inl (hc1 k e hk), ?_⟩
        intro r hr
        simp only [ApiOutcome.ok.injEq] at hr
        subst hr
        exact ⟨data, hva⟩
      · injection hrun with h1 h2
        subst h1; subst h2
        exact ⟨fun k e hk => Or.inl (hc1 k e hk), fun r hr => by simp at hr⟩
    · exact hmiss hrun
  | none =>
    simp only [] at hrun
    exact hmiss hrun

/-- C8 witness: on a cache miss with a parsable, validating workflow output
the success response is validation-produced. -/
theorem research_caches_validated_only_w :
    ∃ j : Nat, (fun j : Nat => if j = 0 then some (⟨"q", 0, []⟩ : ResearchResponse)
      else none) j = some ⟨"q", 0, []⟩ :=
  (research_caches_validated_only Nat (fun _ => some 0)
      (fun j => if j = 0 then some ⟨"q", 0, []⟩ else none) (fun _ => true) []
      0 ['a'] (WfOutcome.ok ['x']) (ApiOutcome.ok ⟨"q", 0, []⟩)
      (cache_set [] ['a'] 0 0) rfl).2 ⟨"q", 0, []⟩ rfl
